import Mathlib

/-!
# EnglishToHebrew pipeline — shallow embedding and verification

Shallow embedding of the PDF-translation pipeline of this repository:
the response validator and retry engine (`utils/openaiProcessor`:
`isValidTranslation`, `processPage`), and the simple-translator main
(`src/testSetup.ts`, third segment): context derivation, page sequencing,
document assembly, chunking (`createChunks`) and chunk summarization
(`summarizeChunk`).

JS strings are modelled as Lean `String` (operating on `String.data` where
the JS operation is index/character based), JS numbers as `Nat`, and the
model/API responses as explicit oracle inputs (`Attempt`, `SumOutcome`).
-/

namespace E2H

/-- JS `needle` occurs at the head of `s`. -/
def patAt : List Char → List Char → Bool
  | [], _ => true
  | _ :: _, [] => false
  | c :: cs, d :: ds => c = d && patAt cs ds

/-- JS substring occurrence (`String.prototype.includes` over code units). -/
def hasPat (pat : List Char) : List Char → Bool
  | [] => patAt pat []
  | c :: cs => patAt pat (c :: cs) || hasPat pat cs

/-- JS `haystack.includes(needle)`. -/
def jsIncludes (haystack needle : String) : Bool :=
  hasPat needle.data haystack.data

/-- JS `String.prototype.toLowerCase` (per-character; ASCII letters fold,
Hebrew characters are untouched, as in JS for these code points). -/
def jsToLower (s : String) : String :=
  String.mk (s.data.map Char.toLower)

/-- Whitespace characters removed by JS `String.prototype.trim` (the ones
relevant to this pipeline's strings). -/
def isJsWs (c : Char) : Bool :=
  c = ' ' || c = '\t' || c = '\n' || c = '\r'

/-- JS `s.trim()`. -/
def jsTrim (s : String) : String :=
  String.mk (((s.data.dropWhile isJsWs).reverse.dropWhile isJsWs).reverse)

/-- JS `s.slice(-n)`: the trailing at-most-`n` characters of `s`. -/
def jsSliceLast (n : Nat) (s : String) : String :=
  String.mk (s.data.drop (s.data.length - n))

/-- `status` field of a page result: `'OK' | 'FAILED' | 'RETRY'`
(`utils/openaiProcessor`, interface `TranslationResult`). -/
inductive Status where
  | OK
  | FAILED
  | RETRY
deriving DecidableEq, Repr

/-- `TranslationResult` (`utils/openaiProcessor`). The optional TS fields
`chapterTitle?`/`sectionTitle?` are always set (possibly to `""`) by every
producer in the source, so they are plain strings here; `retryCount?` is
genuinely optional. -/
structure TranslationResult where
  pageNumber : Nat
  translation : String
  summary : String
  articleTitle : String
  chapterTitle : String
  sectionTitle : String
  status : Status
  retryCount : Option Nat
deriving DecidableEq, Repr

/-- The `failureIndicators` list of `isValidTranslation`
(`utils/openaiProcessor`). -/
def failureIndicators : List String :=
  ["I\x27m unable to provide",
   "I cannot provide",
   "unable to",
   "לא ניתן לתרגם",
   "לא ניתן היה",
   "שגיאה בעיבוד",
   "error",
   "failed"]

/-- `isValidTranslation` (`utils/openaiProcessor`): empty/short fields
(after `trim()`) or any lowercased failure indicator occurring in either
lowercased field invalidate the attempt. -/
def isValidTranslation (translation summary : String) : Bool :=
  if translation = "" ∨ (jsTrim translation).length < 10 then false
  else if summary = "" ∨ (jsTrim summary).length < 10 then false
  else if failureIndicators.any (fun ind =>
      jsIncludes (jsToLower translation) (jsToLower ind) ||
      jsIncludes (jsToLower summary) (jsToLower ind)) then false
  else true

/-- Outcome of one attempt inside `processPage`'s retry loop, as seen at the
points where the source can branch: an exception anywhere in the attempt
(file read / API transport), a null `content`, an unparsable JSON payload,
or a parsed JSON object with the five response fields (the last two optional
in the JSON, defaulted with `|| ''` by the source). -/
inductive Attempt where
  | throwErr
  | noContent
  | badJson
  | parsed (translation summary articleTitle : String)
      (chapterTitle sectionTitle : Option String)
deriving DecidableEq, Repr

/-- The `FAILED` result built by `processPage` when all retries are
exhausted (`utils/openaiProcessor`, lines 339-348). -/
def failedResult (pageNumber maxRetries : Nat) : TranslationResult :=
  { pageNumber := pageNumber
    translation := "שגיאה בעיבוד דף " ++ toString pageNumber ++ " - " ++
      toString (maxRetries + 1) ++ " ניסיונות נכשלו"
    summary := "FAILED - " ++ toString (maxRetries + 1) ++
      " attempts - manual review needed"
    articleTitle := "שגיאה"
    chapterTitle := ""
    sectionTitle := ""
    status := .FAILED
    retryCount := some (maxRetries + 1) }

/-- The `OK` result returned by `processPage` from a validated parsed
response (`utils/openaiProcessor`, lines 314-323). -/
def okResult (pageNumber retryCount : Nat) (translation summary articleTitle : String)
    (chapterTitle sectionTitle : Option String) : TranslationResult :=
  { pageNumber := pageNumber
    translation := translation
    summary := summary
    articleTitle := articleTitle
    chapterTitle := chapterTitle.getD ""
    sectionTitle := sectionTitle.getD ""
    status := .OK
    retryCount := some retryCount }

/-- Observable trace of one `processPage` call: its returned result, how
many attempts were made, and the `delay(...)` waits (in ms) performed
between attempts. -/
structure PageRun where
  result : TranslationResult
  attempts : Nat
  delays : List Nat
deriving DecidableEq, Repr

/-- The retry loop of `processPage` (`while retryCount <= maxRetries`),
with `api k` the outcome of attempt number `k`. The first argument is the
remaining number of loop iterations (`maxRetries + 1 - retryCount`); an
attempt that parses and validates returns the `OK` result, any other
outcome increments `retryCount` and, if the loop will run again
(`retryCount <= maxRetries`), waits 3000 ms first. Exhaustion yields
`failedResult`. -/
def processPageGo (pageNumber maxRetries : Nat) (api : Nat → Attempt) :
    Nat → Nat → PageRun
  | 0, _ => ⟨failedResult pageNumber maxRetries, 0, []⟩
  | remaining + 1, retryCount =>
    match api retryCount with
    | .parsed t s a c sec =>
      if isValidTranslation t s then ⟨okResult pageNumber retryCount t s a c sec, 1, []⟩
      else
        let rest := processPageGo pageNumber maxRetries api remaining (retryCount + 1)
        ⟨rest.result, rest.attempts + 1,
          if retryCount + 1 ≤ maxRetries then 3000 :: rest.delays else rest.delays⟩
    | _ =>
      let rest := processPageGo pageNumber maxRetries api remaining (retryCount + 1)
      ⟨rest.result, rest.attempts + 1,
        if retryCount + 1 ≤ maxRetries then 3000 :: rest.delays else rest.delays⟩

/-- `processPage` (`utils/openaiProcessor`): total at its boundary; the
context strings only shape the prompt, so the attempt outcomes are the
oracle `api`. -/
def processPage (pageNumber : Nat) (previousContext chapterContext : String)
    (maxRetries : Nat) (api : Nat → Attempt) : PageRun :=
  processPageGo pageNumber maxRetries api (maxRetries + 1) 0

/-! ## Chunker (`createChunks`, `src/testSetup.ts` lines 176-224) -/

/-- `ChunkData` (`src/testSetup.ts`). -/
structure ChunkData where
  title : String
  text : String
  pages : List Nat
deriving DecidableEq, Repr

/-- Loop state of `createChunks`: accumulated chunks, the open chunk, and
the `currentChapter` / `currentSection` trackers. -/
structure ChunkState where
  chunks : List ChunkData
  cur : ChunkData
  chap : String
  sec : String
deriving DecidableEq, Repr

/-- `currentChapter` after the tracking update of one `createChunks`
iteration (`src/testSetup.ts` lines 186-189). -/
def nextChap (st : ChunkState) (r : TranslationResult) : String :=
  if r.chapterTitle ≠ "" then r.chapterTitle else st.chap

/-- `currentSection` after the tracking update of one `createChunks`
iteration (`src/testSetup.ts` lines 186-192): reset on a new chapter, then
overridden by a non-empty `sectionTitle`. -/
def nextSec (st : ChunkState) (r : TranslationResult) : String :=
  if r.sectionTitle ≠ "" then r.sectionTitle
  else if r.chapterTitle ≠ "" then "" else st.sec

/-- `contentTitle` of one `createChunks` iteration (`src/testSetup.ts`
lines 195-197). -/
def contentTitleOf (st : ChunkState) (r : TranslationResult) : String :=
  if nextChap st r ≠ "" then
    (if nextSec st r ≠ "" then nextChap st r ++ " > " ++ nextSec st r else nextChap st r)
  else (if nextSec st r ≠ "" then nextSec st r else "תוכן כללי")

/-- One iteration of the `createChunks` loop (`src/testSetup.ts` lines
182-216): skip non-`OK` results; update chapter/section tracking; derive
`contentTitle`; close the open chunk if its title changed or the size limit
would be exceeded (only when it already holds text); then append the page's
translation plus a blank line and its page number. -/
def chunkStep (maxChars : Nat) (st : ChunkState) (r : TranslationResult) : ChunkState :=
  if r.status = .OK then
    let contentTitle := contentTitleOf st r
    let titleChanged := st.cur.title ≠ "" ∧ st.cur.title ≠ contentTitle
    let wouldExceedLimit := st.cur.text.length + r.translation.length > maxChars
    let st₁ : ChunkState :=
      if (titleChanged ∨ wouldExceedLimit) ∧ st.cur.text ≠ "" then
        ⟨st.chunks ++ [st.cur], ⟨contentTitle, "", []⟩, nextChap st r, nextSec st r⟩
      else ⟨st.chunks, st.cur, nextChap st r, nextSec st r⟩
    let cur₂ := if st₁.cur.title = "" then { st₁.cur with title := contentTitle } else st₁.cur
    ⟨st₁.chunks,
     { cur₂ with text := cur₂.text ++ r.translation ++ "\n\n",
                 pages := cur₂.pages ++ [r.pageNumber] },
     nextChap st r, nextSec st r⟩
  else st

/-- `createChunks` (`src/testSetup.ts`): fold the step over all results,
then push the open chunk if it holds any text. -/
def createChunks (results : List TranslationResult) (maxChars : Nat) : List ChunkData :=
  let st := results.foldl (chunkStep maxChars) ⟨[], ⟨"", "", []⟩, "", ""⟩
  if st.cur.text ≠ "" then st.chunks ++ [st.cur] else st.chunks

/-- Shorthand for a minimal `OK` page result used in concrete runs. -/
def okPage (n : Nat) (tr chap sec : String) : TranslationResult :=
  ⟨n, tr, "summary", "title", chap, sec, .OK, some 0⟩

/-! ## Sequencer context derivation (`src/testSetup.ts` lines 318-344) -/

/-- One index of the backward chapter/section scan (`src/testSetup.ts`
lines 328-339). `Sum.inl` is the `break` value taken when the result has a
non-empty `chapterTitle` and the accumulated context is still empty;
`Sum.inr` carries the (possibly updated) accumulated context: a non-empty
`sectionTitle` overwrites it whenever the accumulated context does not
contain `'>'`. -/
def scanOne (acc : String) (r : TranslationResult) : Sum String String :=
  if r.chapterTitle ≠ "" ∧ acc = "" then
    .inl (if r.sectionTitle ≠ "" then r.chapterTitle ++ " > " ++ r.sectionTitle
          else r.chapterTitle)
  else
    .inr (if r.sectionTitle ≠ "" ∧ jsIncludes acc ">" = false then r.sectionTitle else acc)

/-- The backward scan `for (let j = i - 1; j >= 0; j--)` of
`src/testSetup.ts`, starting at index `j` and running down to 0 unless a
`break` fires. -/
def chapterScan (results : List TranslationResult) (acc : String) : Nat → String
  | 0 =>
    match results[0]? with
    | none => acc
    | some r => match scanOne acc r with | .inl v => v | .inr a => a
  | j + 1 =>
    match results[j + 1]? with
    | none => acc
    | some r =>
      match scanOne acc r with
      | .inl v => v
      | .inr a => chapterScan results a j

/-- `previousContext` for the page at 0-based index `i`
(`src/testSetup.ts` lines 320-325): the trailing ≤200 characters of the
immediately preceding result's translation, when that result exists and is
`OK`; else empty. -/
def previousContextFor (results : List TranslationResult) (i : Nat) : String :=
  if 0 < i then
    match results[i - 1]? with
    | some r => if r.status = .OK then jsSliceLast 200 r.translation else ""
    | none => ""
  else ""

/-- `chapterContext` for the page at 0-based index `i` (`src/testSetup.ts`
lines 327-339); like `previousContext` it is only computed when the
immediately preceding result exists and is `OK`. -/
def chapterContextFor (results : List TranslationResult) (i : Nat) : String :=
  if 0 < i then
    match results[i - 1]? with
    | some r => if r.status = .OK then chapterScan results "" (i - 1) else ""
    | none => ""
  else ""

/-! ## Main translation loop (`src/testSetup.ts` lines 312-374) -/

/-- One iteration of the main loop as recorded in the trace: the result of
`processPage` together with the two context strings that were passed to
it. -/
structure MainStep where
  res : TranslationResult
  prevCtx : String
  chapCtx : String
deriving DecidableEq, Repr

/-- The body of one main-loop iteration (`src/testSetup.ts` lines 314-374)
for the page whose 0-based index is `prior.length`: derive the two context
strings from the results so far and call `processPage` with
`maxRetries = 3`. `api` maps an attempt number to its outcome for this
page. -/
def stepAt (api : Nat → Attempt) (prior : List TranslationResult) : MainStep :=
  let i := prior.length
  let prevCtx := previousContextFor prior i
  let chapCtx := chapterContextFor prior i
  ⟨(processPage (i + 1) prevCtx chapCtx 3 api).result, prevCtx, chapCtx⟩

/-- The main loop: `remaining` pages left to process, `acc` the iterations
already performed. `api i k` is the outcome of attempt `k` on the page of
0-based index `i`. -/
def mainGo (api : Nat → Nat → Attempt) : Nat → List MainStep → List MainStep
  | 0, acc => acc
  | remaining + 1, acc =>
    mainGo api remaining (acc ++ [stepAt (api acc.length) (acc.map (·.res))])

/-- Full trace of the main loop over `numPages` pages. -/
def mainTrace (numPages : Nat) (api : Nat → Nat → Attempt) : List MainStep :=
  mainGo api numPages []

/-- The `results` list accumulated by the main loop. -/
def mainResults (numPages : Nat) (api : Nat → Nat → Attempt) : List TranslationResult :=
  (mainTrace numPages api).map (·.res)

/-! ## Document assembly (`src/testSetup.ts` lines 385-408) -/

/-- One piece appended to `translationText`: a chapter heading block, a
section heading line, or a page's translation body. -/
inductive Seg where
  | chapterHead (title : String)
  | sectionHead (title : String)
  | pageBody (translation : String)
deriving DecidableEq, Repr

/-- `'='.repeat(80)`. -/
def rule80 : String := String.mk (List.replicate 80 '=')

/-- The exact text the source appends for each segment
(`src/testSetup.ts` lines 393-407). -/
def renderSeg : Seg → String
  | .chapterHead t => "\n\n" ++ rule80 ++ "\n" ++ t ++ "\n" ++ rule80 ++ "\n\n"
  | .sectionHead t => "\n--- " ++ t ++ " ---\n\n"
  | .pageBody tr => tr ++ "\n\n"

/-- Assembler state: `lastChapter` and `lastSection`. -/
structure AsmState where
  lastChapter : String
  lastSection : String
deriving DecidableEq, Repr

/-- One iteration of the assembly loop (`src/testSetup.ts` lines 389-408):
skip non-`OK` results; emit a chapter heading block when `chapterTitle` is
non-empty and differs from `lastChapter` (updating `lastChapter` and
resetting `lastSection`); then emit a section heading when `sectionTitle`
is non-empty and differs from `lastSection`; then always emit the page's
translation plus a blank line. -/
def asmStep (st : AsmState) (r : TranslationResult) : AsmState × List Seg :=
  if r.status = .OK then
    let st₁ : AsmState :=
      if r.chapterTitle ≠ "" ∧ r.chapterTitle ≠ st.lastChapter then ⟨r.chapterTitle, ""⟩
      else st
    let chapSegs : List Seg :=
      if r.chapterTitle ≠ "" ∧ r.chapterTitle ≠ st.lastChapter then
        [Seg.chapterHead r.chapterTitle]
      else []
    let st₂ : AsmState :=
      if r.sectionTitle ≠ "" ∧ r.sectionTitle ≠ st₁.lastSection then
        ⟨st₁.lastChapter, r.sectionTitle⟩
      else st₁
    let secSegs : List Seg :=
      if r.sectionTitle ≠ "" ∧ r.sectionTitle ≠ st₁.lastSection then
        [Seg.sectionHead r.sectionTitle]
      else []
    (st₂, chapSegs ++ secSegs ++ [Seg.pageBody r.translation])
  else (st, [])

/-- The segments emitted by the assembly loop over `results`. -/
def assembleSegsGo : AsmState → List TranslationResult → List Seg
  | _, [] => []
  | st, r :: rest =>
    let (st', segs) := asmStep st r
    segs ++ assembleSegsGo st' rest

/-- All segments of the assembled document (initial state: both trackers
empty). -/
def assembleSegs (results : List TranslationResult) : List Seg :=
  assembleSegsGo ⟨"", ""⟩ results

/-- `translationText` as built by the source: the concatenation of the
rendered segments. -/
def translationText (results : List TranslationResult) : String :=
  String.join ((assembleSegs results).map renderSeg)

/-- Is a segment a chapter heading block? -/
def isChapterHead : Seg → Bool
  | .chapterHead _ => true
  | _ => false

/-! ## Chunk summarization (`src/testSetup.ts` lines 229-271 and 427-437) -/

/-- Outcome of the single summarization call for one chunk: an exception
anywhere in the call, or a response whose `content` is `none` (null) or a
string. -/
inductive SumOutcome where
  | throwErr
  | ok (content : Option String)
deriving DecidableEq, Repr

/-- `summarizeChunk` (`src/testSetup.ts` lines 229-271): on success the
trimmed content (empty when null/empty), on any thrown error the fixed
Hebrew error string naming the chunk title. -/
def summarizeChunk (chunk : ChunkData) (outcome : SumOutcome) : String :=
  match outcome with
  | .ok content =>
    match content with
    | none => ""
    | some s => jsTrim s
  | .throwErr => "שגיאה בסיכום " ++ chunk.title

/-- The summarization loop (`src/testSetup.ts` lines 429-437): one summary
pushed per chunk, in order; `outcomes i` is the call outcome for chunk
`i`. -/
def summarizeAllGo (outcomes : Nat → SumOutcome) : List ChunkData → Nat → List String
  | [], _ => []
  | c :: rest, i => summarizeChunk c (outcomes i) :: summarizeAllGo outcomes rest (i + 1)

/-- `chunkSummaries` as accumulated by the main function. -/
def summarizeAll (chunks : List ChunkData) (outcomes : Nat → SumOutcome) : List String :=
  summarizeAllGo outcomes chunks 0

/-! ## Spec-side and amended predicates, and concrete run data -/

/-- The failure-marker set exactly as the spec's validation sentence lists
it: `"unable to"`, `"cannot"`, the Hebrew refusal phrases, `"error"`,
`"failed"`. Written from the spec's words, for comparison with the
source's `failureIndicators`. -/
def specFailureMarkers : List String :=
  ["unable to", "cannot", "לא ניתן לתרגם", "לא ניתן היה", "שגיאה בעיבוד",
   "error", "failed"]

/-- Per-field invalidity exactly as the spec's validation sentence states
it: the field is empty or shorter than 10 characters, or its lowercased
text contains one of the spec's failure markers. Written from the spec's
words, for comparison with the source's `isValidTranslation`. -/
def specFieldInvalid (f : String) : Bool :=
  decide (f = "") || decide (f.length < 10) ||
    specFailureMarkers.any (fun m => jsIncludes (jsToLower f) m)

/-- Per-field invalidity as the source actually checks it: the trimmed
field is shorter than 10 characters, or the lowercased field contains one
of the source's (lowercased) `failureIndicators`. -/
def fieldInvalid (f : String) : Bool :=
  decide ((jsTrim f).length < 10) ||
    failureIndicators.any (fun ind => jsIncludes (jsToLower f) (jsToLower ind))

/-- A string of `n` repetitions of `'a'`. -/
def aStr (n : Nat) : String := String.mk (List.replicate n 'a')

/-- Two `OK` pages whose translations measure 5000 and 4998 characters:
the chunker's size check passes (5002 + 4998 = 10000 is not `> 10000`)
yet the resulting two-page chunk holds 10002 characters. -/
def exC2 : List TranslationResult :=
  [okPage 1 (aStr 5000) "" "", okPage 2 (aStr 4998) "" ""]

/-- Two small `OK` pages fitting one chunk under `maxChars = 10`. -/
def exW2 : List TranslationResult :=
  [okPage 1 "ab" "" "", okPage 2 "abcd" "" ""]

/-- Attempt oracle realizing the spec's chapter-context example: page 1
carries chapter "A", page 2 no titles, page 3 only section "B"; page 4 is
then processed with whatever chapter context the sequencer derives. All
attempts succeed on the first try. -/
def apiC1 : Nat → Nat → Attempt := fun i _ =>
  match i with
  | 0 => .parsed "aaaaaaaaaaaa" "bbbbbbbbbbbb" "t" (some "A") none
  | 2 => .parsed "aaaaaaaaaaaa" "bbbbbbbbbbbb" "t" none (some "B")
  | _ => .parsed "aaaaaaaaaaaa" "bbbbbbbbbbbb" "t" none none

/-- Attempt oracle where every page succeeds immediately with a fixed
valid response. -/
def apiW5 : Nat → Nat → Attempt :=
  fun _ _ => .parsed "abcdefghijkl" "mnopqrstuvwx" "t" none none

/-- The result the `apiW5` run produces for page 1. -/
def resW5 : TranslationResult := okResult 1 0 "abcdefghijkl" "mnopqrstuvwx" "t" none none

/-- The trace record the `apiW5` run produces for the second page
(0-based index 1): its `previousContext` is the whole 12-character
translation of page 1. -/
def stepW5 : MainStep :=
  ⟨okResult 2 0 "abcdefghijkl" "mnopqrstuvwx" "t" none none, "abcdefghijkl", ""⟩

/-- Invariant of the `createChunks` fold state: every closed chunk with at
least two pages respects the size bound `maxChars + 2` (the `"\n\n"`
separator of the last page is appended after the size check); the open
chunk holds text iff it holds pages; and the open chunk respects the same
bound once it has two pages. -/
def ChunkInvariant (maxChars : Nat) (st : ChunkState) : Prop :=
  (∀ c ∈ st.chunks, 2 ≤ c.pages.length → c.text.length ≤ maxChars + 2) ∧
  (st.cur.text = "" ↔ st.cur.pages = []) ∧
  (2 ≤ st.cur.pages.length → st.cur.text.length ≤ maxChars + 2)

/-- Every recorded step of a main-loop trace is the step the loop body
computes from the results before it. -/
def GoodTrace (api : Nat → Nat → Attempt) (l : List MainStep) : Prop :=
  ∀ i step, l[i]? = some step →
    step = stepAt (api i) ((l.take i).map MainStep.res)

/-! ## General helper lemmas -/

theorem jsTrim_empty : jsTrim "" = "" := by decide

theorem str_ne_empty_of_length_pos {s : String} (h : 0 < s.length) : s ≠ "" := by
  intro he
  subst he
  simp at h

theorem str_data_nil_iff (s : String) : s.data = [] ↔ s = "" := by
  constructor
  · intro h
    apply String.ext
    rw [h]
  · intro h
    subst h
    rfl

theorem jsSliceLast_ne_empty {n : Nat} {s : String} (hn : 0 < n) (hs : s ≠ "") :
    jsSliceLast n s ≠ "" := by
  intro h
  have hd : s.data.drop (s.data.length - n) = [] := by
    have h2 := congrArg String.data h
    simpa [jsSliceLast] using h2
  have hlen := congrArg List.length hd
  rw [List.length_drop, List.length_nil] at hlen
  have hpos : 0 < s.data.length := by
    rcases Nat.eq_zero_or_pos s.data.length with h0 | hlt
    · exact absurd ((str_data_nil_iff s).mp (List.length_eq_zero.mp h0)) hs
    · exact hlt
  omega

theorem isValid_translation_ne_empty {t s : String}
    (h : isValidTranslation t s = true) : t ≠ "" := by
  intro he
  subst he
  simp [isValidTranslation] at h

/-! ## Retry engine: totality and exhaustion (claims about `processPage`) -/

theorem processPageGo_status (pn mr : Nat) (api : Nat → Attempt) :
    ∀ rem rc, (processPageGo pn mr api rem rc).result.status = Status.OK ∨
      (processPageGo pn mr api rem rc).result.status = Status.FAILED := by
  intro rem
  induction rem with
  | zero =>
    intro rc
    right
    rfl
  | succ rem ih =>
    intro rc
    rw [processPageGo]
    split
    · rename_i t s a c sec ha
      by_cases hv : isValidTranslation t s
      · simp [hv, okResult]
      · simpa [hv] using ih (rc + 1)
    · simpa using ih (rc + 1)

theorem processPageGo_pageNumber (pn mr : Nat) (api : Nat → Attempt) :
    ∀ rem rc, (processPageGo pn mr api rem rc).result.pageNumber = pn := by
  intro rem
  induction rem with
  | zero =>
    intro rc
    rfl
  | succ rem ih =>
    intro rc
    rw [processPageGo]
    split
    · rename_i t s a c sec ha
      by_cases hv : isValidTranslation t s
      · simp [hv, okResult]
      · simpa [hv] using ih (rc + 1)
    · simpa using ih (rc + 1)

theorem processPageGo_ok_translation (pn mr : Nat) (api : Nat → Attempt) :
    ∀ rem rc, (processPageGo pn mr api rem rc).result.status = Status.OK →
      (processPageGo pn mr api rem rc).result.translation ≠ "" := by
  intro rem
  induction rem with
  | zero =>
    intro rc h
    exact absurd h (by simp [processPageGo, failedResult])
  | succ rem ih =>
    intro rc
    rw [processPageGo]
    split
    · rename_i t s a c sec ha
      by_cases hv : isValidTranslation t s
      · simp [hv, okResult]
        exact isValid_translation_ne_empty hv
      · simpa [hv] using ih (rc + 1)
    · simpa using ih (rc + 1)

theorem processPageGo_all_fail (pn mr : Nat) (api : Nat → Attempt)
    (h : ∀ k, k ≤ mr → ∀ t s a c sec, api k = .parsed t s a c sec →
      isValidTranslation t s = false) :
    ∀ rem rc, rem + rc = mr + 1 →
      processPageGo pn mr api rem rc
        = ⟨failedResult pn mr, rem, List.replicate (rem - 1) 3000⟩ := by
  intro rem
  induction rem with
  | zero =>
    intro rc _
    rfl
  | succ rem ih =>
    intro rc hrc
    have hk : rc ≤ mr := by omega
    have hrest := ih (rc + 1) (by omega)
    rw [processPageGo]
    have hdelays : (if rc + 1 ≤ mr then 3000 :: List.replicate (rem - 1) 3000
        else List.replicate (rem - 1) 3000) = List.replicate (rem + 1 - 1) 3000 := by
      by_cases hif : rc + 1 ≤ mr
      · have h1 : 1 ≤ rem := by omega
        cases rem with
        | zero => omega
        | succ rem' => simp [hif, List.replicate_succ]
      · have h0 : rem = 0 := by omega
        subst h0
        simp [hif]
    split
    · rename_i t s a c sec ha
      have hv := h rc hk t s a c sec ha
      simp [hv, hrest, hdelays]
    · simp [hrest, hdelays]

/-- C7: when every attempt of `processPage` for a page fails validation
(or throws / yields no parsable response), the call performs exactly
`maxRetries + 1` attempts with a 3000 ms delay between successive
attempts, and returns the `FAILED` result whose Hebrew placeholder
translation names the page number and the attempt count, whose summary is
the English diagnostic, and whose chapter/section titles are empty. -/
theorem processPage_exhausts_to_failed (pageNumber maxRetries : Nat)
    (previousContext chapterContext : String) (api : Nat → Attempt)
    (h : ∀ k, k ≤ maxRetries → ∀ t s a c sec, api k = .parsed t s a c sec →
      isValidTranslation t s = false) :
    processPage pageNumber previousContext chapterContext maxRetries api
      = ⟨failedResult pageNumber maxRetries, maxRetries + 1,
         List.replicate maxRetries 3000⟩ := by
  have hgo := processPageGo_all_fail pageNumber maxRetries api h (maxRetries + 1) 0 (by omega)
  simpa [processPage] using hgo

/-- Witness for C7: a page whose four attempts all throw is `FAILED` after
4 attempts with three 3-second delays. -/
theorem processPage_exhausts_to_failed_witness :
    processPage 5 "" "" 3 (fun _ => .throwErr)
      = ⟨failedResult 5 3, 4, List.replicate 3 3000⟩ := by
  exact processPage_exhausts_to_failed 5 3 "" "" (fun _ => .throwErr)
    (fun k _ t s a c sec hcontra => Attempt.noConfusion hcontra)

/-- C10: `processPage` is total at its boundary — for every input it
returns a result whose status is `OK` or `FAILED`; the `RETRY` variant of
the status type is never returned. -/
theorem processPage_status_ok_or_failed (pageNumber maxRetries : Nat)
    (previousContext chapterContext : String) (api : Nat → Attempt) :
    (processPage pageNumber previousContext chapterContext maxRetries api).result.status
        = Status.OK ∨
      (processPage pageNumber previousContext chapterContext maxRetries api).result.status
        = Status.FAILED :=
  processPageGo_status pageNumber maxRetries api (maxRetries + 1) 0

/-! ## Chunk summarization (C9) -/

theorem summarizeAllGo_spec (outcomes : Nat → SumOutcome) :
    ∀ (chunks : List ChunkData) (i0 : Nat),
      (summarizeAllGo outcomes chunks i0).length = chunks.length ∧
      ∀ i c, chunks[i]? = some c → outcomes (i0 + i) = .throwErr →
        (summarizeAllGo outcomes chunks i0)[i]? = some ("שגיאה בסיכום " ++ c.title) := by
  intro chunks
  induction chunks with
  | nil =>
    intro i0
    refine ⟨rfl, ?_⟩
    intro i c hc
    simp at hc
  | cons hd tl ih =>
    intro i0
    refine ⟨by simp [summarizeAllGo, (ih (i0 + 1)).1], ?_⟩
    intro i c hc hthrow
    cases i with
    | zero =>
      simp at hc
      subst hc
      have h0 : outcomes i0 = .throwErr := by simpa using hthrow
      simp [summarizeAllGo, summarizeChunk, h0]
    | succ i =>
      have hc' : tl[i]? = some c := by simpa using hc
      have hthrow' : outcomes (i0 + 1 + i) = .throwErr := by
        have : i0 + 1 + i = i0 + (i + 1) := by omega
        rw [this]
        exact hthrow
      have := (ih (i0 + 1)).2 i c hc' hthrow'
      simpa [summarizeAllGo] using this

/-- C9: the summarization loop yields exactly one summary per chunk, in
order, and any chunk whose single summarization call throws gets the fixed
Hebrew error string naming that chunk's title while later chunks are still
processed. -/
theorem summarizeAll_error_and_coverage (chunks : List ChunkData)
    (outcomes : Nat → SumOutcome) :
    (summarizeAll chunks outcomes).length = chunks.length ∧
    ∀ i c, chunks[i]? = some c → outcomes i = .throwErr →
      (summarizeAll chunks outcomes)[i]? = some ("שגיאה בסיכום " ++ c.title) := by
  have h := summarizeAllGo_spec outcomes chunks 0
  refine ⟨h.1, ?_⟩
  intro i c hc ho
  exact h.2 i c hc (by simpa using ho)

/-- Witness for C9: a two-chunk run whose first call throws still yields
two summaries, the first being the Hebrew error string for chunk 1. -/
theorem summarizeAll_error_and_coverage_witness :
    (summarizeAll [⟨"T1", "x", [1]⟩, ⟨"T2", "y", [2]⟩]
        (fun i => if i = 0 then .throwErr else .ok (some "s"))).length = 2 ∧
    (summarizeAll [⟨"T1", "x", [1]⟩, ⟨"T2", "y", [2]⟩]
        (fun i => if i = 0 then .throwErr else .ok (some "s")))[0]?
      = some ("שגיאה בסיכום " ++ "T1") := by
  have h := summarizeAll_error_and_coverage
    [⟨"T1", "x", [1]⟩, ⟨"T2", "y", [2]⟩]
    (fun i => if i = 0 then .throwErr else .ok (some "s"))
  exact ⟨h.1, h.2 0 ⟨"T1", "x", [1]⟩ (by decide) (by decide)⟩

/-! ## Response validation (C8) -/

/-- Counterexample for C8: the claim's per-field rule (markers include the
bare word "cannot", length measured untrimmed) diverges from the source:
a translation containing "cannot" — but none of the source's eight exact
indicators — is accepted by `isValidTranslation`, while the claim's
`specFieldInvalid` classifies it invalid. -/
theorem isValid_accepts_bare_cannot :
    isValidTranslation "this result cannot change now" "summary of the page content" = true ∧
    specFieldInvalid "this result cannot change now" = true := by decide

/-- C8 (amended): `isValidTranslation` rejects an attempt iff the
translation field or the summary field is invalid, where a field is
invalid exactly when its trimmed text is shorter than 10 characters (in
particular when empty) or its lowercased text contains one of the
source's eight lowercased `failureIndicators`. -/
theorem isValid_false_iff_field_invalid (t s : String) :
    isValidTranslation t s = false ↔
      (fieldInvalid t = true ∨ fieldInvalid s = true) := by
  have hemp : ∀ u : String, u = "" → (jsTrim u).length < 10 := by
    intro u hu
    subst hu
    simp [jsTrim_empty]
  simp only [isValidTranslation, fieldInvalid]
  split_ifs with h1 h2 h3
  · rcases h1 with h1 | h1
    · simp [hemp t h1]
    · simp [h1]
  · rcases h2 with h2 | h2
    · simp [hemp s h2]
    · simp [h2]
  · rw [List.any_eq_true] at h3
    obtain ⟨ind, hind, hor⟩ := h3
    rw [Bool.or_eq_true] at hor
    rcases hor with hcase | hcase
    · simp only [eq_self_iff_true, true_iff]
      left
      rw [Bool.or_eq_true, List.any_eq_true]
      exact Or.inr ⟨ind, hind, hcase⟩
    · simp only [eq_self_iff_true, true_iff]
      right
      rw [Bool.or_eq_true, List.any_eq_true]
      exact Or.inr ⟨ind, hind, hcase⟩
  · push_neg at h1 h2
    constructor
    · intro hcontra
      exact absurd hcontra (by simp)
    · intro hcontra
      rcases hcontra with hc | hc
      · rw [Bool.or_eq_true] at hc
        rcases hc with hc | hc
        · rw [decide_eq_true_eq] at hc
          exact absurd hc (by omega)
        · rw [List.any_eq_true] at hc
          obtain ⟨ind, hind, hincl⟩ := hc
          have : failureIndicators.any (fun ind =>
              jsIncludes (jsToLower t) (jsToLower ind) ||
              jsIncludes (jsToLower s) (jsToLower ind)) = true := by
            rw [List.any_eq_true]
            exact ⟨ind, hind, by rw [Bool.or_eq_true]; exact Or.inl hincl⟩
          exact absurd this (by simpa using h3)
      · rw [Bool.or_eq_true] at hc
        rcases hc with hc | hc
        · rw [decide_eq_true_eq] at hc
          exact absurd hc (by omega)
        · rw [List.any_eq_true] at hc
          obtain ⟨ind, hind, hincl⟩ := hc
          have : failureIndicators.any (fun ind =>
              jsIncludes (jsToLower t) (jsToLower ind) ||
              jsIncludes (jsToLower s) (jsToLower ind)) = true := by
            rw [List.any_eq_true]
            exact ⟨ind, hind, by rw [Bool.or_eq_true]; exact Or.inr hincl⟩
          exact absurd this (by simpa using h3)

/-! ## Chunker invariants (C2, C3) -/

theorem newline2_length : ("\n\n" : String).length = 2 := by decide

theorem aStr_length (n : Nat) : (aStr n).length = n := by
  rw [aStr, String.length_mk, List.length_replicate]

theorem str_length_pos_of_ne_empty {s : String} (h : s ≠ "") : 0 < s.length := by
  rcases Nat.eq_zero_or_pos s.length with h0 | hpos
  · exact absurd ((str_data_nil_iff s).mp (List.length_eq_zero.mp h0)) h
  · exact hpos

theorem append_newline_eq_empty_false (s : String) : (s ++ "\n\n" = "") = False := by
  apply eq_false
  intro h
  have hl := congrArg String.length h
  rw [String.length_append, newline2_length, String.length_empty] at hl
  omega

theorem chunkStep_inv (maxChars : Nat) (st : ChunkState) (r : TranslationResult)
    (hinv : ChunkInvariant maxChars st) :
    ChunkInvariant maxChars (chunkStep maxChars st r) := by
  obtain ⟨hchunks, hiff, hbound⟩ := hinv
  by_cases hok : r.status = .OK
  · simp only [chunkStep, hok, eq_self_iff_true, if_true]
    split_ifs with h₁ h₂
    · refine ⟨?_, ?_, ?_⟩
      · intro c hc
        simp only [List.mem_append, List.mem_singleton] at hc
        rcases hc with hc | hc
        · exact hchunks c hc
        · subst hc
          exact hbound
      · constructor
        · intro htext
          exfalso
          have hl := congrArg String.length htext
          simp [String.length_append, newline2_length] at hl
        · intro hpages
          exfalso
          simp at hpages
      · intro h2le
        simp at h2le
    · refine ⟨?_, ?_, ?_⟩
      · intro c hc
        simp only [List.mem_append, List.mem_singleton] at hc
        rcases hc with hc | hc
        · exact hchunks c hc
        · subst hc
          exact hbound
      · constructor
        · intro htext
          exfalso
          have hl := congrArg String.length htext
          simp [String.length_append, newline2_length] at hl
        · intro hpages
          exfalso
          simp at hpages
      · intro h2le
        simp at h2le
    · refine ⟨hchunks, ?_, ?_⟩
      · constructor
        · intro htext
          exfalso
          have hl := congrArg String.length htext
          simp [String.length_append, newline2_length] at hl
        · intro hpages
          exfalso
          simp at hpages
      · intro h2le
        by_cases htext : st.cur.text = ""
        · have hpag : st.cur.pages = [] := hiff.mp htext
          simp [hpag] at h2le
        · have hnwe : ¬(st.cur.text.length + r.translation.length > maxChars) := by
            intro hwe
            exact h₁ ⟨Or.inr hwe, htext⟩
          simp only [String.length_append, newline2_length]
          omega
    · refine ⟨hchunks, ?_, ?_⟩
      · constructor
        · intro htext
          exfalso
          have hl := congrArg String.length htext
          simp [String.length_append, newline2_length] at hl
        · intro hpages
          exfalso
          simp at hpages
      · intro h2le
        by_cases htext : st.cur.text = ""
        · have hpag : st.cur.pages = [] := hiff.mp htext
          simp [hpag] at h2le
        · have hnwe : ¬(st.cur.text.length + r.translation.length > maxChars) := by
            intro hwe
            exact h₁ ⟨Or.inr hwe, htext⟩
          simp only [String.length_append, newline2_length]
          omega
  · simp only [chunkStep, hok, if_false]
    exact ⟨hchunks, hiff, hbound⟩

theorem chunkFold_inv (maxChars : Nat) :
    ∀ (results : List TranslationResult) (st : ChunkState),
      ChunkInvariant maxChars st →
      ChunkInvariant maxChars (results.foldl (chunkStep maxChars) st) := by
  intro results
  induction results with
  | nil =>
    intro st h
    exact h
  | cons r rest ih =>
    intro st h
    exact ih _ (chunkStep_inv maxChars st r h)

theorem chunkInvariant_init (maxChars : Nat) :
    ChunkInvariant maxChars ⟨[], ⟨"", "", []⟩, "", ""⟩ := by
  refine ⟨?_, by simp, by simp⟩
  intro c hc
  simp at hc

/-- Counterexample for C2: with the configured maximum of 10000, two `OK`
pages of translation lengths 5000 and 4998 land in one chunk ([1, 2]) of
text length 10002 — a multi-page chunk strictly above the limit, because
the `"\n\n"` separator is appended after the size check. -/
theorem chunk_two_pages_exceeds_max :
    (createChunks exC2 10000).map (fun c => (c.pages.length, c.text.length))
      = [(2, 10002)] := by
  have ha5 : (aStr 5000).length = 5000 := aStr_length 5000
  have ha4 : (aStr 4998).length = 4998 := aStr_length 4998
  simp [createChunks, exC2, chunkStep, okPage, contentTitleOf, nextChap, nextSec,
    ha5, ha4, String.length_append, String.length_empty, newline2_length,
    append_newline_eq_empty_false]

/-- C2 (amended): every chunk holding at least two pages has text length
at most `maxChars + 2` — the size check bounds the accumulated text plus
the incoming translation by `maxChars`, and only the final two-character
`"\n\n"` separator is uncounted; a chunk holding a single page may exceed
even that, since the limit is only checked before adding a page. -/
theorem chunk_multi_page_size_bound (results : List TranslationResult) (maxChars : Nat)
    (c : ChunkData) (hc : c ∈ createChunks results maxChars) (h2 : 2 ≤ c.pages.length) :
    c.text.length ≤ maxChars + 2 := by
  obtain ⟨hchunks, hiff, hbound⟩ :=
    chunkFold_inv maxChars results ⟨[], ⟨"", "", []⟩, "", ""⟩ (chunkInvariant_init maxChars)
  simp only [createChunks] at hc
  split_ifs at hc with hfin
  · simp only [List.mem_append, List.mem_singleton] at hc
    rcases hc with hc | hc
    · exact hchunks c hc h2
    · subst hc
      exact hbound h2
  · exact hchunks c hc h2

/-- Witness for C2 (amended): the two-page chunk produced from `exW2`
under `maxChars = 10` has text length 10 ≤ 12. -/
theorem chunk_multi_page_size_bound_witness :
    (ChunkData.text ⟨"תוכן כללי", "ab\n\nabcd\n\n", [1, 2]⟩).length ≤ 10 + 2 := by
  exact chunk_multi_page_size_bound exW2 10 ⟨"תוכן כללי", "ab\n\nabcd\n\n", [1, 2]⟩
    (by decide) (by decide)

theorem chunkStep_pages_join (maxChars : Nat) (st : ChunkState) (r : TranslationResult) :
    ((chunkStep maxChars st r).chunks.map ChunkData.pages).flatten
        ++ (chunkStep maxChars st r).cur.pages
      = ((st.chunks.map ChunkData.pages).flatten ++ st.cur.pages)
        ++ (if r.status = .OK then [r.pageNumber] else []) := by
  by_cases hok : r.status = .OK
  · simp only [chunkStep, hok, eq_self_iff_true, if_true]
    split_ifs with h₁ h₂
    · simp [List.map_append, List.flatten_append]
    · simp [List.map_append, List.flatten_append]
    · simp
    · simp
  · simp [chunkStep, hok]

theorem chunkFold_pages_join (maxChars : Nat) :
    ∀ (results : List TranslationResult) (st : ChunkState),
      ((results.foldl (chunkStep maxChars) st).chunks.map ChunkData.pages).flatten
          ++ (results.foldl (chunkStep maxChars) st).cur.pages
        = ((st.chunks.map ChunkData.pages).flatten ++ st.cur.pages)
          ++ (results.filter (fun r => decide (r.status = .OK))).map
              TranslationResult.pageNumber := by
  intro results
  induction results with
  | nil =>
    intro st
    simp
  | cons r rest ih =>
    intro st
    simp only [List.foldl_cons]
    rw [ih (chunkStep maxChars st r), chunkStep_pages_join]
    by_cases hok : r.status = .OK
    · simp [hok, List.filter_cons, List.append_assoc]
    · simp [hok, List.filter_cons, List.append_assoc]

/-- C3: the concatenation of all chunks' `pages` lists, in chunk order,
is exactly the ordered list of page numbers of the `OK` results — no
omission, no duplication. -/
theorem createChunks_pages_join (results : List TranslationResult) (maxChars : Nat) :
    ((createChunks results maxChars).map ChunkData.pages).flatten
      = (results.filter (fun r => decide (r.status = .OK))).map
          TranslationResult.pageNumber := by
  have hinv := chunkFold_inv maxChars results ⟨[], ⟨"", "", []⟩, "", ""⟩
    (chunkInvariant_init maxChars)
  have hjoin := chunkFold_pages_join maxChars results ⟨[], ⟨"", "", []⟩, "", ""⟩
  simp only [createChunks]
  split_ifs with hfin
  · rw [List.map_append, List.flatten_append]
    simpa using hjoin
  · have hpag : (results.foldl (chunkStep maxChars) ⟨[], ⟨"", "", []⟩, "", ""⟩).cur.pages = []
      := hinv.2.1.mp (not_ne_iff.mp hfin)
    rw [hpag] at hjoin
    simpa using hjoin

/-! ## Main-loop trace lemmas (C1, C4, C5) -/

theorem take_append_le {α : Type _} (l₁ l₂ : List α) {i : Nat} (h : i ≤ l₁.length) :
    (l₁ ++ l₂).take i = l₁.take i := by
  rw [List.take_append_eq_append_take, Nat.sub_eq_zero_of_le h, List.take_zero,
    List.append_nil]

theorem goodTrace_append (api : Nat → Nat → Attempt) (acc : List MainStep)
    (hacc : GoodTrace api acc) :
    GoodTrace api (acc ++ [stepAt (api acc.length) (acc.map MainStep.res)]) := by
  intro i step h
  rcases Nat.lt_trichotomy i acc.length with hlt | heq | hgt
  · rw [List.getElem?_append_left hlt] at h
    rw [take_append_le _ _ (Nat.le_of_lt hlt)]
    exact hacc i step h
  · subst heq
    rw [List.getElem?_concat_length] at h
    rw [List.take_left]
    exact (Option.some.injEq _ _ ▸ h).symm
  · rw [List.getElem?_eq_none (by simp; omega)] at h
    cases h

theorem mainGo_good (api : Nat → Nat → Attempt) :
    ∀ (rem : Nat) (acc : List MainStep), GoodTrace api acc →
      GoodTrace api (mainGo api rem acc) := by
  intro rem
  induction rem with
  | zero =>
    intro acc h
    exact h
  | succ rem ih =>
    intro acc h
    rw [mainGo]
    exact ih _ (goodTrace_append api acc h)

theorem mainTrace_good (numPages : Nat) (api : Nat → Nat → Attempt) :
    GoodTrace api (mainTrace numPages api) := by
  apply mainGo_good
  intro i step h
  simp at h

theorem mainGo_map_pageNumber (api : Nat → Nat → Attempt) :
    ∀ (rem : Nat) (acc : List MainStep),
      (mainGo api rem acc).map (fun st => st.res.pageNumber)
        = acc.map (fun st => st.res.pageNumber) ++ List.range' (acc.length + 1) rem := by
  intro rem
  induction rem with
  | zero =>
    intro acc
    simp [mainGo]
  | succ rem ih =>
    intro acc
    rw [mainGo, ih, List.range'_succ]
    simp [stepAt, processPage, processPageGo_pageNumber]

/-- C4: the main loop produces exactly one result per page and the
`pageNumber` fields are exactly `1..N` in ascending order with no gaps,
duplicates or reordering, regardless of how many pages fail. -/
theorem main_pageNumbers_range (numPages : Nat) (api : Nat → Nat → Attempt) :
    (mainResults numPages api).length = numPages ∧
    (mainResults numPages api).map TranslationResult.pageNumber
      = List.range' 1 numPages := by
  have h := mainGo_map_pageNumber api numPages []
  simp only [List.map_nil, List.nil_append, List.length_nil, Nat.zero_add] at h
  constructor
  · have hlen := congrArg List.length h
    simpa [mainResults, mainTrace] using hlen
  · have hmap : (mainResults numPages api).map TranslationResult.pageNumber
        = (mainGo api numPages []).map (fun st => st.res.pageNumber) := by
      simp [mainResults, mainTrace]
    rw [hmap, h]

theorem processPage_ok_translation (pn : Nat) (pc cc : String) (mr : Nat)
    (api : Nat → Attempt) :
    (processPage pn pc cc mr api).result.status = Status.OK →
    (processPage pn pc cc mr api).result.translation ≠ "" :=
  processPageGo_ok_translation pn mr api (mr + 1) 0

/-- C5: the `previousContext` recorded for the page at 0-based index `i`
is non-empty iff the immediately preceding result exists and is `OK`; in
that case it is the trailing ≤200 characters of that result's
translation, and a `FAILED` predecessor yields an empty context
regardless of earlier successes. -/
theorem previousContext_iff_pred_ok (numPages : Nat) (api : Nat → Nat → Attempt)
    (i : Nat) (step : MainStep) (hstep : (mainTrace numPages api)[i]? = some step) :
    (step.prevCtx ≠ "" ↔
      ∃ r, 0 < i ∧ (mainResults numPages api)[i - 1]? = some r ∧ r.status = .OK) ∧
    (∀ r, 0 < i → (mainResults numPages api)[i - 1]? = some r → r.status = .OK →
      step.prevCtx = jsSliceLast 200 r.translation) ∧
    (∀ r, 0 < i → (mainResults numPages api)[i - 1]? = some r → r.status = .FAILED →
      step.prevCtx = "") := by
  have hgood := mainTrace_good numPages api i step hstep
  have hilen : i < (mainTrace numPages api).length := by
    by_contra hle
    rw [List.getElem?_eq_none (by omega)] at hstep
    cases hstep
  have hplen : (((mainTrace numPages api).take i).map MainStep.res).length = i := by
    simp [List.length_take]
    omega
  have hpc : step.prevCtx
      = previousContextFor (((mainTrace numPages api).take i).map MainStep.res) i := by
    rw [hgood]
    simp only [stepAt]
    rw [hplen]
  cases Nat.eq_zero_or_pos i with
  | inl h0 =>
    subst h0
    rw [hpc]
    simp [previousContextFor]
  | inr hpos =>
    have hprior : (((mainTrace numPages api).take i).map MainStep.res)[i - 1]?
        = (mainResults numPages api)[i - 1]? := by
      rw [List.getElem?_map, List.getElem?_take_of_lt (by omega)]
      simp [mainResults, List.getElem?_map]
    rcases hr : (mainResults numPages api)[i - 1]? with _ | r
    · exfalso
      have hlen2 : (mainResults numPages api).length = (mainTrace numPages api).length := by
        simp [mainResults]
      have := List.getElem?_eq_none_iff.mp hr
      omega
    · have hstepres : ∃ s', (mainTrace numPages api)[i - 1]? = some s' ∧ s'.res = r := by
        have hmap : (mainResults numPages api)[i - 1]?
            = ((mainTrace numPages api)[i - 1]?).map MainStep.res := by
          simp [mainResults, List.getElem?_map]
        rw [hmap] at hr
        rcases h' : (mainTrace numPages api)[i - 1]? with _ | s'
        · rw [h'] at hr
          cases hr
        · rw [h'] at hr
          exact ⟨s', rfl, by simpa using hr⟩
      obtain ⟨s', hs', hres⟩ := hstepres
      have hgood' := mainTrace_good numPages api (i - 1) s' hs'
      have hproc : ∃ pn pc cc, s'.res = (processPage pn pc cc 3 (api (i - 1))).result := by
        rw [hgood']
        exact ⟨_, _, _, rfl⟩
      obtain ⟨pn, pc, cc, hre⟩ := hproc
      by_cases hOK : r.status = .OK
      · have hpcr : step.prevCtx = jsSliceLast 200 r.translation := by
          rw [hpc]
          simp only [previousContextFor]
          rw [if_pos hpos, hprior, hr]
          simp [hOK]
        have htrne : r.translation ≠ "" := by
          have hst : (processPage pn pc cc 3 (api (i - 1))).result.status = Status.OK := by
            rw [← hre, hres, hOK]
          have hne0 := processPage_ok_translation pn pc cc 3 (api (i - 1)) hst
          rw [← hre, hres] at hne0
          exact hne0
        have hne : jsSliceLast 200 r.translation ≠ "" :=
          jsSliceLast_ne_empty (by omega) htrne
        refine ⟨?_, ?_, ?_⟩
        · constructor
          · intro _
            exact ⟨r, hpos, rfl, hOK⟩
          · intro _
            rw [hpcr]
            exact hne
        · intro r' _ hr' hOK'
          have heq : r' = r := (Option.some.inj hr').symm
          subst heq
          exact hpcr
        · intro r' _ hr' hFAIL
          have heq : r' = r := (Option.some.inj hr').symm
          subst heq
          rw [hOK] at hFAIL
          cases hFAIL
      · have hpcr : step.prevCtx = "" := by
          rw [hpc]
          simp only [previousContextFor]
          rw [if_pos hpos, hprior, hr]
          simp [hOK]
        refine ⟨?_, ?_, ?_⟩
        · rw [hpcr]
          simp only [ne_eq, not_true_eq_false, false_iff]
          intro hcontra
          obtain ⟨r', _, hr', hOK'⟩ := hcontra
          have heq : r' = r := (Option.some.inj hr').symm
          subst heq
          exact hOK hOK'
        · intro r' _ hr' hOK'
          exfalso
          have heq : r' = r := (Option.some.inj hr').symm
          subst heq
          exact hOK hOK'
        · intro r' _ hr' _
          exact hpcr

/-- Witness for C5: in a two-page run where both pages succeed with a
12-character translation, page 2's recorded `previousContext` is
non-empty and equals the trailing ≤200 characters of page 1's
translation. -/
theorem previousContext_iff_pred_ok_witness :
    stepW5.prevCtx ≠ "" ∧ stepW5.prevCtx = jsSliceLast 200 resW5.translation := by
  have h := previousContext_iff_pred_ok 2 apiW5 1 stepW5 (by decide)
  refine ⟨?_, ?_⟩
  · exact h.1.mpr ⟨resW5, by decide, by decide, by decide⟩
  · exact h.2.1 resW5 (by decide) (by decide) (by decide)

/-- C1 (evaluation at the failing input): with page 1 carrying chapter
"A", page 2 no titles and page 3 only section "B", the chapter context
the sequencer computes for page 4 is "B" — not "A" as the claim and the
repository's own process documentation state — because the backward
scan's section-only branch fills `chapterContext` first and the chapter
branch requires it to still be empty. -/
theorem chapterContext_page4_is_B :
    chapterContextFor [okPage 1 "aaaaaaaaaaaa" "A" "", okPage 2 "aaaaaaaaaaaa" "" "",
        okPage 3 "aaaaaaaaaaaa" "" "B"] 3 = "B" ∧
    ((mainTrace 4 apiC1)[3]?).map MainStep.chapCtx = some "B" := by decide

/-! ## Document assembly (C6) -/

/-- C6: in the document assembler, two consecutive `OK` pages with the
same non-empty `chapterTitle` produce the chapter heading block at most
once (exactly once iff the tracked chapter differs beforehand); and a
chapter change emits the heading and resets the tracked section, so the
page's section heading is emitted even when its `sectionTitle` equals the
previously tracked one. -/
theorem assembly_chapter_once_section_reset :
    (∀ (st : AsmState) (r₁ r₂ : TranslationResult),
      r₁.status = .OK → r₂.status = .OK → r₁.chapterTitle ≠ "" →
      r₂.chapterTitle = r₁.chapterTitle →
      (((asmStep st r₁).2 ++ (asmStep (asmStep st r₁).1 r₂).2).filter
          isChapterHead).length
        = (if st.lastChapter = r₁.chapterTitle then 0 else 1)) ∧
    (∀ (st : AsmState) (r : TranslationResult),
      r.status = .OK → r.chapterTitle ≠ "" → r.chapterTitle ≠ st.lastChapter →
      r.sectionTitle ≠ "" →
      (asmStep st r).2
        = [Seg.chapterHead r.chapterTitle, Seg.sectionHead r.sectionTitle,
           Seg.pageBody r.translation]) := by
  constructor
  · intro st r₁ r₂ h1 h2 hc hcc
    simp only [asmStep, h1, h2, if_true, eq_self_iff_true]
    by_cases hst : st.lastChapter = r₁.chapterTitle
    · rw [if_pos hst]
      split_ifs <;> simp_all [isChapterHead]
    · rw [if_neg hst]
      split_ifs <;> simp_all [isChapterHead]
  · intro st r h hc hne hs
    simp only [asmStep, h, if_true, eq_self_iff_true]
    split_ifs <;> simp_all

/-- Witness for C6: from tracked state ("X", "S"), two pages with chapter
"C" emit one chapter block, and a page with chapter "C" and section "S"
re-emits the section heading even though "S" was already tracked. -/
theorem assembly_chapter_once_section_reset_witness :
    (((asmStep ⟨"X", "S"⟩ (okPage 1 "t1" "C" "S")).2
        ++ (asmStep (asmStep ⟨"X", "S"⟩ (okPage 1 "t1" "C" "S")).1
            (okPage 2 "t2" "C" "S")).2).filter isChapterHead).length = 1 ∧
    (asmStep ⟨"X", "S"⟩ (okPage 3 "t3" "C" "S")).2
      = [Seg.chapterHead "C", Seg.sectionHead "S", Seg.pageBody "t3"] := by
  have h := assembly_chapter_once_section_reset
  constructor
  · have h1 := h.1 ⟨"X", "S"⟩ (okPage 1 "t1" "C" "S") (okPage 2 "t2" "C" "S")
      rfl rfl (by decide) rfl
    simpa using h1
  · exact h.2 ⟨"X", "S"⟩ (okPage 3 "t3" "C" "S") rfl (by decide) (by decide) (by decide)

end E2H
